import Mathlib

/-!
Shallow embedding of the eolib-rs-recharged wire-encoding core.

Source files embedded:
* `src/data/mod.rs` — number codec (`encode_number`, `encode_number_64`,
  `decode_number`) and the in-place string obfuscator
  (`encode_string`, `decode_string`).
* `src/encrypt/mod.rs` — `valid_for_encryption`.
* `src/encrypt/encrypt_packet.rs` / `decrypt_packet.rs` — the packet cipher.
* `src/encrypt/server_verification_hash.rs` — the verification hash.
* `src/encrypt/decrypt_string.rs` — the legacy string cipher (decrypt side).

Modelling conventions:
* Machine integers are `Int`; Rust's `x & 0xFF` and `x as u8` on an `i32`/`i64`
  are `x % 256` (Lean's `%` on `Int` is the Euclidean remainder, which agrees
  with taking the low 8 bits of the two's-complement representation).
* Rust's `%` on `i64` is the truncated remainder, modelled by `Int.tmod`
  where an operand can be negative (the verification hash); where every
  operand is non-negative (the number codec) the Euclidean `%` agrees with it
  and is used directly.
* Arithmetic overflow of the fixed-width types is modelled with
  two's-complement wraparound (release-build semantics): `wrap32` for `i32`,
  `% 256` for `u8`.
* A buffer of bytes is a `List Nat` (each element < 256) or `List Int` for the
  codec, matching the byte arrays of the source.
* An out-of-bounds slice index is a panic, modelled by `Option` (`none`).
-/

namespace Eolib

/-- `CHAR_MAX` from src/data/mod.rs. -/
def CHAR_MAX : Int := 253

/-- `SHORT_MAX = CHAR_MAX * CHAR_MAX` from src/data/mod.rs. -/
def SHORT_MAX : Int := CHAR_MAX * CHAR_MAX

/-- `THREE_MAX = CHAR_MAX * CHAR_MAX * CHAR_MAX` from src/data/mod.rs. -/
def THREE_MAX : Int := CHAR_MAX * CHAR_MAX * CHAR_MAX

/-- `INT_MAX = CHAR_MAX⁴` from src/data/mod.rs. -/
def INT_MAX : Int := CHAR_MAX * CHAR_MAX * CHAR_MAX * CHAR_MAX

lemma CHAR_MAX_eq : CHAR_MAX = 253 := rfl

lemma SHORT_MAX_eq : SHORT_MAX = 64009 := by norm_num [SHORT_MAX, CHAR_MAX]

lemma THREE_MAX_eq : THREE_MAX = 16194277 := by norm_num [THREE_MAX, CHAR_MAX]

lemma INT_MAX_eq : INT_MAX = 4097152081 := by norm_num [INT_MAX, CHAR_MAX]

/-- Two's-complement wraparound of a mathematical integer into the `i32` range,
used to model `as i32` casts and `i32` overflow (release-build semantics). -/
def wrap32 (x : Int) : Int := (x + 2147483648) % 4294967296 - 2147483648

/-- `i32::abs` with two's-complement wraparound: `abs(i32::MIN)` overflows and
wraps back to `i32::MIN` (release-build semantics). -/
def i32_wrapping_abs (n : Int) : Int :=
  if n = -2147483648 then -2147483648 else if n < 0 then -n else n

/-- The sign-normalization step at the top of `encode_number`
(src/data/mod.rs): a negative `i32` input is remapped by
`number.abs() as i64 + i32::MAX as i64`. -/
def normalize_i32 (n : Int) : Int :=
  if n < 0 then i32_wrapping_abs n + 2147483647 else n

/-- `number` after the `number %= THREE_MAX` branch of `encode_number`; the
guard tests the original (normalized) value, as in the source. -/
def enc_rem3 (num : Int) : Int := if THREE_MAX ≤ num then num % THREE_MAX else num

/-- `number` after the `number %= SHORT_MAX` branch of `encode_number`. -/
def enc_rem2 (num : Int) : Int :=
  if SHORT_MAX ≤ num then enc_rem3 num % SHORT_MAX else enc_rem3 num

/-- `number` after the `number %= CHAR_MAX` branch of `encode_number`. -/
def enc_rem1 (num : Int) : Int :=
  if CHAR_MAX ≤ num then enc_rem2 num % CHAR_MAX else enc_rem2 num

/-- `bytes[3]` produced by `encode_number`:
`(number / THREE_MAX) as u8 + 1` when the guard fires, else the 254 sentinel. -/
def enc_b3 (num : Int) : Int :=
  if THREE_MAX ≤ num then (num / THREE_MAX % 256 + 1) % 256 else 254

/-- `bytes[2]` produced by `encode_number`. -/
def enc_b2 (num : Int) : Int :=
  if SHORT_MAX ≤ num then (enc_rem3 num / SHORT_MAX % 256 + 1) % 256 else 254

/-- `bytes[1]` produced by `encode_number`. -/
def enc_b1 (num : Int) : Int :=
  if CHAR_MAX ≤ num then (enc_rem2 num / CHAR_MAX % 256 + 1) % 256 else 254

/-- `bytes[0]` produced by `encode_number`: `number as u8 + 1`. -/
def enc_b0 (num : Int) : Int := (enc_rem1 num % 256 + 1) % 256

/-- `encode_number` from src/data/mod.rs. Returns the four bytes
`[bytes[0], bytes[1], bytes[2], bytes[3]]`, or the `InvalidIntValue`
error (carrying the normalized value) when the normalized input
reaches `INT_MAX`. -/
def encode_number (n : Int) : Except Int (List Int) :=
  if INT_MAX ≤ normalize_i32 n then
    Except.error (normalize_i32 n)
  else
    Except.ok [enc_b0 (normalize_i32 n), enc_b1 (normalize_i32 n),
      enc_b2 (normalize_i32 n), enc_b3 (normalize_i32 n)]

/-- `number` after the `number %= INT_MAX` branch of `encode_number_64`. -/
def enc64_rem4 (n : Int) : Int := if INT_MAX ≤ n then n % INT_MAX else n

/-- `number` after the `number %= THREE_MAX` branch of `encode_number_64`;
all guards test the original input, as in the source. -/
def enc64_rem3 (n : Int) : Int :=
  if THREE_MAX ≤ n then enc64_rem4 n % THREE_MAX else enc64_rem4 n

/-- `number` after the `number %= SHORT_MAX` branch of `encode_number_64`. -/
def enc64_rem2 (n : Int) : Int :=
  if SHORT_MAX ≤ n then enc64_rem3 n % SHORT_MAX else enc64_rem3 n

/-- `number` after the `number %= CHAR_MAX` branch of `encode_number_64`. -/
def enc64_rem1 (n : Int) : Int :=
  if CHAR_MAX ≤ n then enc64_rem2 n % CHAR_MAX else enc64_rem2 n

/-- `bytes[4]` produced by `encode_number_64`. -/
def enc64_b4 (n : Int) : Int :=
  if INT_MAX ≤ n then (n / INT_MAX % 256 + 1) % 256 else 254

/-- `bytes[3]` produced by `encode_number_64`. -/
def enc64_b3 (n : Int) : Int :=
  if THREE_MAX ≤ n then (enc64_rem4 n / THREE_MAX % 256 + 1) % 256 else 254

/-- `bytes[2]` produced by `encode_number_64`. -/
def enc64_b2 (n : Int) : Int :=
  if SHORT_MAX ≤ n then (enc64_rem3 n / SHORT_MAX % 256 + 1) % 256 else 254

/-- `bytes[1]` produced by `encode_number_64`. -/
def enc64_b1 (n : Int) : Int :=
  if CHAR_MAX ≤ n then (enc64_rem2 n / CHAR_MAX % 256 + 1) % 256 else 254

/-- `bytes[0]` produced by `encode_number_64`: `number as u8 + 1`. -/
def enc64_b0 (n : Int) : Int := (enc64_rem1 n % 256 + 1) % 256

/-- `encode_number_64` from src/data/mod.rs: the five-byte encoder.
It performs no range check and always returns `Ok`. -/
def encode_number_64 (n : Int) : Except Int (List Int) :=
  Except.ok [enc64_b0 n, enc64_b1 n, enc64_b2 n, enc64_b3 n, enc64_b4 n]

/-- The per-position byte selection of `decode_number` (src/data/mod.rs):
`data[i]` is `bytes[i]` when that index is in bounds and the byte is
non-zero, else the 254 sentinel (out of range, `List.getD` yields 0,
which the source's `bytes.len() > i` guard likewise sends to 254). -/
def decode_byte (bytes : List Int) (i : Nat) : Int :=
  if bytes.getD i 0 ≠ 0 then bytes.getD i 0 else 254

/-- The per-position digit of `decode_number`: a 254 byte becomes 1,
then the byte is decremented. -/
def eo_digit (v : Int) : Int := (if v = 254 then 1 else v) - 1

/-- `decode_number` from src/data/mod.rs, with the source's
`wrapping_mul`/`wrapping_add` chain on `i32` made explicit via `wrap32`. -/
def decode_number (bytes : List Int) : Int :=
  wrap32 (wrap32 (wrap32 (wrap32 (eo_digit (decode_byte bytes 3) * THREE_MAX) +
    wrap32 (eo_digit (decode_byte bytes 2) * SHORT_MAX)) +
    wrap32 (eo_digit (decode_byte bytes 1) * CHAR_MAX)) +
    eo_digit (decode_byte bytes 0))

/-- The loop of `decode_string` (src/data/mod.rs): add 2 at even indices,
1 at odd indices, with `u8` wraparound. The index argument tracks the
position of the head within the original buffer. -/
def decode_string_from (i : Nat) : List Nat → List Nat
  | [] => []
  | c :: rest => (c + (if i % 2 = 0 then 2 else 1)) % 256 :: decode_string_from (i + 1) rest

/-- `decode_string` from src/data/mod.rs. -/
def decode_string (buf : List Nat) : List Nat := decode_string_from 0 buf

/-- The loop of `encode_string` (src/data/mod.rs): subtract 2 at even
indices, 1 at odd indices, with `u8` wraparound. -/
def encode_string_from (i : Nat) : List Nat → List Nat
  | [] => []
  | c :: rest =>
      (c + 256 - (if i % 2 = 0 then 2 else 1)) % 256 :: encode_string_from (i + 1) rest

/-- `encode_string` from src/data/mod.rs. -/
def encode_string (buf : List Nat) : List Nat := encode_string_from 0 buf

/-- `valid_for_encryption` from src/encrypt/mod.rs:
`buf.len() > 2 && buf[0..=1] != [0xff, 0xff]`. -/
def valid_for_encryption (buf : List Nat) : Bool :=
  decide (2 < buf.length) && !(buf.take 2 == [0xff, 0xff])

/-- The loop of `encrypt_packet` (src/encrypt/encrypt_packet.rs), iterating
`i` from 1: `val = (((val + 3) % 256) + key + i) & 0xFF`. -/
def encrypt_packet_from (key : Int) (i : Nat) : List Nat → List Nat
  | [] => []
  | b :: rest =>
      ((((b : Int) + 3) % 256 + key + (i : Int)) % 256).toNat ::
        encrypt_packet_from key (i + 1) rest

/-- `encrypt_packet` from src/encrypt/encrypt_packet.rs. -/
def encrypt_packet (buf : List Nat) (key : Int) : List Nat :=
  if valid_for_encryption buf then encrypt_packet_from key 1 buf else buf

/-- The loop of `decrypt_packet` (src/encrypt/decrypt_packet.rs), iterating
`i` from 1: `val = (((val + 253) % 256) - key - i) & 0xFF`. -/
def decrypt_packet_from (key : Int) (i : Nat) : List Nat → List Nat
  | [] => []
  | b :: rest =>
      ((((b : Int) + 253) % 256 - key - (i : Int)) % 256).toNat ::
        decrypt_packet_from key (i + 1) rest

/-- `decrypt_packet` from src/encrypt/decrypt_packet.rs. The `magic`
parameter is accepted and never read, exactly as in the source. -/
def decrypt_packet (buf : List Nat) (key : Int) (magic : Int) : List Nat :=
  if valid_for_encryption buf then decrypt_packet_from key 1 buf else buf

/-- `server_verification_hash` from src/encrypt/server_verification_hash.rs,
with Rust's truncated `%` on `i64` as `Int.tmod` and the final `as i32`
cast as `wrap32`. -/
def server_verification_hash (x : Int) : Int :=
  wrap32 ((x + 1).tmod 2023
    + 1
    + ((110 * (31072023 - (x + 1))).tmod (109 * ((x + 1).tmod 22 + 1)))
        * ((x + 1).tmod 2 + 1)
    + 11221)

/-- The loop of `decrypt_string` (src/encrypt/decrypt_string.rs), which reads
`encrypted_bytes[i]` and `encrypted_bytes[i + 1]` for `i = 0, 2, 4, …`: on a
single trailing byte the second read is out of bounds and the program
panics, modelled by `none`. The argument `k` is `i / 2 + 1`. -/
def decrypt_string_from (key : Int) (k : Nat) : List Nat → Option (List Int)
  | [] => some []
  | [_] => none
  | c1 :: c2 :: rest =>
      match decrypt_string_from key (k + 1) rest with
      | some r =>
          some (((((c1 : Int) - 0x41) * 24 + ((c2 : Int) - 0x41)) - (k : Int) * key) % 256 :: r)
      | none => none

/-- `decrypt_string` from src/encrypt/decrypt_string.rs, on the byte level. -/
def decrypt_string (s : List Nat) (key : Int) : Option (List Int) :=
  decrypt_string_from key 1 s

/-- The sign-normalized magnitude named by the specification of the
`InvalidValue` condition: `n` itself when `n ≥ 0`, `abs(n) + 2147483647`
when `n < 0` (the mathematical absolute value, as the spec words it). -/
def sign_normalized_magnitude (n : Int) : Int :=
  if n < 0 then -n + 2147483647 else n

/-! ### Helper lemmas -/

lemma encrypt_packet_from_length (key : Int) (i : Nat) (l : List Nat) :
    (encrypt_packet_from key i l).length = l.length := by
  induction l generalizing i with
  | nil => rfl
  | cons b rest ih => simp [encrypt_packet_from, ih]

lemma decrypt_packet_from_encrypt_packet_from (key : Int) (i : Nat) (l : List Nat)
    (h : ∀ x ∈ l, x < 256) :
    decrypt_packet_from key i (encrypt_packet_from key i l) = l := by
  induction l generalizing i with
  | nil => rfl
  | cons b rest ih =>
    have hb : b < 256 := h b (List.mem_cons_self b rest)
    have hrest : ∀ x ∈ rest, x < 256 := fun x hx => h x (List.mem_cons_of_mem b hx)
    simp only [encrypt_packet_from, decrypt_packet_from, ih (i + 1) hrest, List.cons.injEq,
      and_true]
    omega

lemma decode_string_from_encode_string_from (i : Nat) (l : List Nat)
    (h : ∀ x ∈ l, x < 256) :
    decode_string_from i (encode_string_from i l) = l := by
  induction l generalizing i with
  | nil => rfl
  | cons c rest ih =>
    have hc : c < 256 := h c (List.mem_cons_self c rest)
    have hrest : ∀ x ∈ rest, x < 256 := fun x hx => h x (List.mem_cons_of_mem c hx)
    simp only [encode_string_from, decode_string_from, ih (i + 1) hrest, List.cons.injEq,
      and_true]
    by_cases hi : i % 2 = 0 <;> simp only [hi, if_true, if_false, reduceIte] <;> omega

lemma encode_string_from_decode_string_from (i : Nat) (l : List Nat)
    (h : ∀ x ∈ l, x < 256) :
    encode_string_from i (decode_string_from i l) = l := by
  induction l generalizing i with
  | nil => rfl
  | cons c rest ih =>
    have hc : c < 256 := h c (List.mem_cons_self c rest)
    have hrest : ∀ x ∈ rest, x < 256 := fun x hx => h x (List.mem_cons_of_mem c hx)
    simp only [decode_string_from, encode_string_from, ih (i + 1) hrest, List.cons.injEq,
      and_true]
    by_cases hi : i % 2 = 0 <;> simp only [hi, if_true, if_false, reduceIte] <;> omega

lemma eo_digit_succ (d : Int) (h0 : 0 ≤ d) (h1 : d ≤ 252) :
    eo_digit (if d + 1 ≠ 0 then d + 1 else 254) = d := by
  rw [if_pos (by omega)]
  unfold eo_digit
  rw [if_neg (by omega)]
  omega

lemma eo_digit_254 : eo_digit (if (254 : Int) ≠ 0 then 254 else 254) = 0 := by
  simp [eo_digit]

/-! ### Claim theorems -/

/-- C1: the documented test vector of the packet cipher does not hold of the
code: encrypting `[21, 18, 145, 72, …]` with key 6 yields `[31, 29, 157, …]`,
not the documented `[149, 161, 146, …]`, and decrypting the documented output
with key 6 does not restore the original buffer. -/
theorem C1_packet_cipher_doc_vector :
    encrypt_packet [21, 18, 145, 72, 101, 108, 108, 111, 44, 32, 119, 111, 114, 108, 100, 33] 6
      = [31, 29, 157, 85, 115, 123, 124, 128, 62, 51, 139, 132, 136, 131, 124, 58] ∧
    encrypt_packet [21, 18, 145, 72, 101, 108, 108, 111, 44, 32, 119, 111, 114, 108, 100, 33] 6
      ≠ [149, 161, 146, 228, 17, 242, 200, 236, 229, 239, 236, 247, 236, 160, 239, 172] ∧
    decrypt_packet [149, 161, 146, 228, 17, 242, 200, 236, 229, 239, 236, 247, 236, 160, 239, 172]
        6 0
      ≠ [21, 18, 145, 72, 101, 108, 108, 111, 44, 32, 119, 111, 114, 108, 100, 33] := by
  refine ⟨by decide, by decide, by decide⟩

/-- C2 (amended): for every buffer of length > 2 not starting with
`0xFF 0xFF`, all of whose bytes are below 256, and every key in `[6, 12]`,
provided the encrypted buffer itself does not start with `0xFF 0xFF`,
decrypting the encryption with the same key (and any magic) restores the
buffer. -/
theorem C2_decrypt_encrypt_roundtrip (b : List Nat) (key magic : Int)
    (hlen : 2 < b.length) (htwo : b.take 2 ≠ [0xff, 0xff])
    (hbytes : ∀ x ∈ b, x < 256) (hk1 : 6 ≤ key) (hk2 : key ≤ 12)
    (henc : (encrypt_packet b key).take 2 ≠ [0xff, 0xff]) :
    decrypt_packet (encrypt_packet b key) key magic = b := by
  have hv : valid_for_encryption b = true := by
    simp [valid_for_encryption, hlen, htwo]
  rw [encrypt_packet, if_pos hv] at henc ⊢
  have hv2 : valid_for_encryption (encrypt_packet_from key 1 b) = true := by
    simp [valid_for_encryption, encrypt_packet_from_length, hlen, henc]
  rw [decrypt_packet, if_pos hv2]
  exact decrypt_packet_from_encrypt_packet_from key 1 b hbytes

/-- Witness for C2 at the buffer `[1, 2, 3]` with key 6. -/
theorem C2_roundtrip_witness :
    decrypt_packet (encrypt_packet [1, 2, 3] 6) 6 0 = [1, 2, 3] :=
  C2_decrypt_encrypt_roundtrip [1, 2, 3] 6 0 (by decide) (by decide) (by decide)
    (by decide) (by decide) (by decide)

/-- Counterexample to C2 as stated: the buffer `[245, 244, 0]` has length 3,
does not start with `0xFF 0xFF`, and the key 6 lies in `[6, 12]`, yet the
round trip fails — encryption produces `[255, 255, 12]`, which the decryptor
treats as an unobfuscated marker packet and returns unchanged. -/
theorem C2_roundtrip_counterexample :
    2 < ([245, 244, 0] : List Nat).length ∧
    ([245, 244, 0] : List Nat).take 2 ≠ [0xff, 0xff] ∧
    ((6 : Int) ≤ 6 ∧ (6 : Int) ≤ 12) ∧
    decrypt_packet (encrypt_packet [245, 244, 0] 6) 6 0 ≠ [245, 244, 0] := by
  refine ⟨by decide, by decide, ⟨by decide, by decide⟩, by decide⟩

/-- C3: a buffer of length at most 2, or one starting with `0xFF 0xFF`, is
left unchanged by both `encrypt_packet` and `decrypt_packet`, for every key
and magic. -/
theorem C3_short_or_marked_buffers_unchanged (buf : List Nat) (key magic : Int)
    (h : buf.length ≤ 2 ∨ buf.take 2 = [0xff, 0xff]) :
    encrypt_packet buf key = buf ∧ decrypt_packet buf key magic = buf := by
  have hv : valid_for_encryption buf = false := by
    rcases h with h | h
    · simp [valid_for_encryption, Nat.not_lt.mpr h]
    · simp [valid_for_encryption, h]
  simp [encrypt_packet, decrypt_packet, hv]

/-- Witness for C3 at the marker-prefixed buffer `[255, 255, 7]`. -/
theorem C3_unchanged_witness :
    encrypt_packet [255, 255, 7] 3 = [255, 255, 7] ∧
    decrypt_packet [255, 255, 7] 3 9 = [255, 255, 7] :=
  C3_short_or_marked_buffers_unchanged [255, 255, 7] 3 9 (Or.inr (by decide))

/-- C4: for every `i32` input `n` with `0 ≤ n` (all of which lie below
`INT_MAX = 253⁴`), `encode_number` succeeds and `decode_number` of the
encoding restores `n` exactly. -/
theorem C4_decode_encode_roundtrip (n : Int) (h0 : 0 ≤ n) (h1 : n < 2147483648) :
    ∃ bs, encode_number n = Except.ok bs ∧ decode_number bs = n := by
  have hnorm : normalize_i32 n = n := by unfold normalize_i32; rw [if_neg (by omega)]
  have hr3 : enc_rem3 n = n % 16194277 := by
    unfold enc_rem3; simp only [THREE_MAX_eq]; split_ifs <;> omega
  have hr2 : enc_rem2 n = n % 16194277 % 64009 := by
    unfold enc_rem2; rw [hr3]; simp only [SHORT_MAX_eq]; split_ifs <;> omega
  have hr1 : enc_rem1 n = n % 16194277 % 64009 % 253 := by
    unfold enc_rem1; rw [hr2]; simp only [CHAR_MAX_eq]; split_ifs <;> omega
  have d3 : eo_digit (if enc_b3 n ≠ 0 then enc_b3 n else 254) = n / 16194277 := by
    unfold enc_b3; simp only [THREE_MAX_eq]
    by_cases hc : (16194277 : Int) ≤ n
    · rw [if_pos hc, show (n / 16194277 % 256 + 1) % 256 = n / 16194277 + 1 from by omega,
        eo_digit_succ (n / 16194277) (by omega) (by omega)]
    · rw [if_neg hc, eo_digit_254]; omega
  have d2 : eo_digit (if enc_b2 n ≠ 0 then enc_b2 n else 254) = n % 16194277 / 64009 := by
    unfold enc_b2; rw [hr3]; simp only [SHORT_MAX_eq]
    by_cases hc : (64009 : Int) ≤ n
    · rw [if_pos hc,
        show (n % 16194277 / 64009 % 256 + 1) % 256 = n % 16194277 / 64009 + 1 from by omega,
        eo_digit_succ (n % 16194277 / 64009) (by omega) (by omega)]
    · rw [if_neg hc, eo_digit_254]; omega
  have d1 : eo_digit (if enc_b1 n ≠ 0 then enc_b1 n else 254)
      = n % 16194277 % 64009 / 253 := by
    unfold enc_b1; rw [hr2]; simp only [CHAR_MAX_eq]
    by_cases hc : (253 : Int) ≤ n
    · rw [if_pos hc,
        show (n % 16194277 % 64009 / 253 % 256 + 1) % 256 = n % 16194277 % 64009 / 253 + 1
          from by omega,
        eo_digit_succ (n % 16194277 % 64009 / 253) (by omega) (by omega)]
    · rw [if_neg hc, eo_digit_254]; omega
  have d0 : eo_digit (if enc_b0 n ≠ 0 then enc_b0 n else 254)
      = n % 16194277 % 64009 % 253 := by
    unfold enc_b0; rw [hr1]
    rw [show (n % 16194277 % 64009 % 253 % 256 + 1) % 256 = n % 16194277 % 64009 % 253 + 1
        from by omega,
      eo_digit_succ (n % 16194277 % 64009 % 253) (by omega) (by omega)]
  refine ⟨[enc_b0 n, enc_b1 n, enc_b2 n, enc_b3 n], ?_, ?_⟩
  · unfold encode_number
    rw [hnorm, if_neg (by rw [INT_MAX_eq]; omega)]
  · unfold decode_number decode_byte
    simp only [List.getD_cons_zero, List.getD_cons_succ]
    rw [d0, d1, d2, d3]
    unfold wrap32
    simp only [THREE_MAX_eq, SHORT_MAX_eq, CHAR_MAX_eq]
    omega

/-- Witness for C4 at the documented input 42. -/
theorem C4_roundtrip_witness :
    ∃ bs, encode_number 42 = Except.ok bs ∧ decode_number bs = 42 :=
  C4_decode_encode_roundtrip 42 (by decide) (by decide)

/-- C5 (amended): for every `i32` input except `i32::MIN`, `encode_number`
returns the `InvalidValue` error exactly when the sign-normalized magnitude
of the input reaches `INT_MAX = 253⁴`, and otherwise returns a 4-byte
encoding. -/
theorem C5_encode_number_invalid_value_iff (n : Int)
    (hlo : -2147483648 ≤ n) (hhi : n < 2147483648) (hmin : n ≠ -2147483648) :
    ((∃ e, encode_number n = Except.error e) ↔ INT_MAX ≤ sign_normalized_magnitude n) ∧
    (sign_normalized_magnitude n < INT_MAX →
      ∃ bs, encode_number n = Except.ok bs ∧ bs.length = 4) := by
  have hnorm : normalize_i32 n = sign_normalized_magnitude n := by
    unfold normalize_i32 i32_wrapping_abs sign_normalized_magnitude
    split_ifs <;> omega
  unfold encode_number
  rw [hnorm]
  by_cases hcase : INT_MAX ≤ sign_normalized_magnitude n
  · rw [if_pos hcase]
    exact ⟨⟨fun _ => hcase, fun _ => ⟨_, rfl⟩⟩, fun hlt => absurd hcase (by omega)⟩
  · rw [if_neg hcase]
    refine ⟨⟨fun h => ?_, fun h => absurd h hcase⟩, fun _ => ⟨_, rfl, rfl⟩⟩
    exact absurd h.choose_spec (by simp)

/-- Witness for C5 at the input 42. -/
theorem C5_invalid_value_witness :
    ((∃ e, encode_number 42 = Except.error e) ↔ INT_MAX ≤ sign_normalized_magnitude 42) ∧
    (sign_normalized_magnitude 42 < INT_MAX →
      ∃ bs, encode_number 42 = Except.ok bs ∧ bs.length = 4) :=
  C5_encode_number_invalid_value_iff 42 (by decide) (by decide) (by decide)

/-- Counterexample to C5 as stated: at `i32::MIN` the sign-normalized
magnitude (2147483648 + 2147483647) reaches `INT_MAX`, yet the code does not
return the `InvalidValue` error — `abs` wraps `i32::MIN` to itself, the
normalized value becomes −1, and the encoder returns `Ok` with a 0 byte. -/
theorem C5_min_input_not_rejected :
    encode_number (-2147483648) = Except.ok [0, 254, 254, 254] ∧
    INT_MAX ≤ sign_normalized_magnitude (-2147483648) := by
  refine ⟨rfl, by decide⟩

/-- C6 (amended): every byte of an encoding produced by `encode_number` on an
`i32` input other than `i32::MIN` lies in `[1, 254]`, and every byte of an
array returned by `encode_number_64` lies in `[1, 254]` for inputs in
`[0, 254·INT_MAX)`. -/
theorem C6_encoder_bytes_in_range :
    (∀ n bs, -2147483648 ≤ n → n < 2147483648 → n ≠ -2147483648 →
      encode_number n = Except.ok bs → ∀ b ∈ bs, 1 ≤ b ∧ b ≤ 254) ∧
    (∀ n bs, 0 ≤ n → n < 254 * INT_MAX → encode_number_64 n = Except.ok bs →
      ∀ b ∈ bs, 1 ≤ b ∧ b ≤ 254) := by
  constructor
  · intro n bs hlo hhi hmin heq b hb
    have hnum : 0 ≤ normalize_i32 n ∧ normalize_i32 n ≤ 4294967294 := by
      unfold normalize_i32 i32_wrapping_abs; split_ifs <;> omega
    unfold encode_number at heq
    by_cases hc : INT_MAX ≤ normalize_i32 n
    · rw [if_pos hc] at heq; exact Except.noConfusion heq
    · rw [if_neg hc] at heq
      rw [INT_MAX_eq] at hc
      injection heq with heq
      subst heq
      simp only [List.mem_cons, List.not_mem_nil, or_false] at hb
      rcases hb with hb | hb | hb | hb <;> subst hb <;>
        · simp only [enc_b0, enc_b1, enc_b2, enc_b3, enc_rem1, enc_rem2, enc_rem3,
            SHORT_MAX_eq, THREE_MAX_eq, CHAR_MAX_eq]
          split_ifs <;> omega
  · intro n bs hlo hhi heq b hb
    rw [INT_MAX_eq] at hhi
    unfold encode_number_64 at heq
    injection heq with heq
    subst heq
    simp only [List.mem_cons, List.not_mem_nil, or_false] at hb
    rcases hb with hb | hb | hb | hb | hb <;> subst hb <;>
      · simp only [enc64_b0, enc64_b1, enc64_b2, enc64_b3, enc64_b4,
          enc64_rem1, enc64_rem2, enc64_rem3, enc64_rem4,
          SHORT_MAX_eq, THREE_MAX_eq, INT_MAX_eq, CHAR_MAX_eq]
        split_ifs <;> omega

/-- Witness for C6: the first byte of the encoding of 42 lies in `[1, 254]`. -/
theorem C6_bytes_witness : (1 : Int) ≤ 43 ∧ (43 : Int) ≤ 254 :=
  C6_encoder_bytes_in_range.1 42 [43, 254, 254, 254] (by decide) (by decide)
    (by decide) rfl 43 (by decide)

/-- Counterexample to C6 as stated: `encode_number_64` accepts −2 and emits
the byte 255, which the claim says never appears in an encoder output. -/
theorem C6_encode_64_byte_255 :
    encode_number_64 (-2) = Except.ok [255, 254, 254, 254, 254] ∧
    ¬ ((255 : Int) ≤ 254) := by
  refine ⟨rfl, by decide⟩

/-- C7: the string obfuscator is a strict involution pair on byte buffers:
decoding an encoding and encoding a decoding both restore the buffer, with
byte arithmetic wrapping modulo 256. -/
theorem C7_string_obfuscator_involution (b : List Nat) (h : ∀ x ∈ b, x < 256) :
    decode_string (encode_string b) = b ∧ encode_string (decode_string b) = b :=
  ⟨decode_string_from_encode_string_from 0 b h,
    encode_string_from_decode_string_from 0 b h⟩

/-- Witness for C7 at the bytes of `"Void"`. -/
theorem C7_involution_witness :
    decode_string (encode_string [86, 111, 105, 100]) = [86, 111, 105, 100] ∧
    encode_string (decode_string [86, 111, 105, 100]) = [86, 111, 105, 100] :=
  C7_string_obfuscator_involution [86, 111, 105, 100] (by decide)

/-- C8: on an odd-length input the loop of `decrypt_string` reads one byte
past the end of the buffer, which panics, modelled here by `none` — the code
does not silently ignore the trailing unpaired byte. -/
theorem C8_decrypt_string_odd_length :
    decrypt_string [65] 1 = none ∧ decrypt_string [65, 66, 67] 7 = none := by
  refine ⟨by decide, by decide⟩

/-- C9: the verification hash evaluated at the documented challenge 123456
yields 11668, not the documented 300733. -/
theorem C9_server_verification_hash_123456 :
    server_verification_hash 123456 = 11668 ∧
    server_verification_hash 123456 ≠ 300733 := by
  refine ⟨by decide, by decide⟩

/-- C10: `decrypt_packet` never reads its magic argument, so its result is
the same for any two magic values. -/
theorem C10_decrypt_packet_magic_independent (buf : List Nat) (key m1 m2 : Int) :
    decrypt_packet buf key m1 = decrypt_packet buf key m2 := rfl

end Eolib
